import Mathlib

/-!
Verification of the sqlfluff HNL plugin rules
(`sqlfluff_plugin_hnl/rules.py` and `sqlfluff_plugin_hnl/__init__.py`).

The syntax tree consumed by the rules is embedded shallowly: a
`select_clause` is the ordered list of its `select_clause_element`
children; each element carries its optional `column_reference` child,
its optional `alias_expression` child, its source start line, and a
node identity (standing for the position marker that distinguishes
otherwise identical segments).  Identifier children of a reference-like
node are kept in document order, tagged as naked or quoted, together
with their raw text (quotes included for quoted identifiers, exactly as
in the source tree).
-/

/-- An identifier-bearing child of a `column_reference` or
`alias_expression` node: a `naked_identifier`, a `quoted_identifier`
(raw text keeps the quote characters), or any other token (dots,
positional parameters, ...). -/
inductive RefChild where
  | naked (s : String)
  | quoted (s : String)
  | other (s : String)
deriving DecidableEq, Repr

/-- Raw text of an identifier child. -/
def RefChild.raw : RefChild → String
  | RefChild.naked s => s
  | RefChild.quoted s => s
  | RefChild.other s => s

/-- One `select_clause_element`: optional `column_reference` child
(with its ordered identifier children), optional `alias_expression`
child (with its ordered identifier children), the element's source
start line, and a node identity. -/
structure SelectClauseElement where
  column_reference : Option (List RefChild)
  alias_expression : Option (List RefChild)
  start_line : Nat
  node_id : Nat
deriving DecidableEq, Repr

/-- A `select_clause`: its `select_clause_element` children in document
order (other children are filtered out by both rules). -/
abbrev Clause := List SelectClauseElement

/-- A freshly constructed leaf token carried by an insert edit. -/
inductive Token where
  | whitespace
  | keyword (s : String)
  | identifier (child : RefChild)
deriving DecidableEq, Repr

/-- The node a `LintFix` is anchored on. -/
inductive Anchor where
  | columnRef (ref : List RefChild)
  | aliasExpr (ae : List RefChild)
  | clauseElem (e : SelectClauseElement)
deriving DecidableEq, Repr

/-- An edit: `LintFix.create_after(anchor, tokens)` or
`LintFix.delete(anchor)`. -/
inductive LintFix where
  | create_after (anchor : Anchor) (tokens : List Token)
  | delete (anchor : Anchor)
deriving DecidableEq, Repr

/-- A `LintResult`: anchor element, description, fixes. -/
structure LintResult where
  anchor : SelectClauseElement
  description : String
  fixes : List LintFix
deriving DecidableEq, Repr

/-- Embedding of `node.get_child("naked_identifier")`: first naked
child. -/
def getChildNaked (cs : List RefChild) : Option RefChild :=
  cs.find? fun c => match c with
    | RefChild.naked _ => true
    | _ => false

/-- Embedding of `node.get_child("quoted_identifier")`: first quoted
child. -/
def getChildQuoted (cs : List RefChild) : Option RefChild :=
  cs.find? fun c => match c with
    | RefChild.quoted _ => true
    | _ => false

/-- Embedding of `node.get_children("naked_identifier")`: all naked
children in
document order. -/
def getChildrenNaked (cs : List RefChild) : List RefChild :=
  cs.filter fun c => match c with
    | RefChild.naked _ => true
    | _ => false

/-- Identifier extraction of `Rule_HNL_A001._eval` (rules.py lines
146-157): if the reference has a naked or a quoted identifier child,
take the quoted one if present, else the last naked one; otherwise the
column has no extractable identifier. -/
def columnIdentifier (ref : List RefChild) : Option RefChild :=
  if (getChildNaked ref).isSome || (getChildQuoted ref).isSome then
    match getChildQuoted ref with
    | some q => some q
    | none => (getChildrenNaked ref).getLast?
  else
    none

/-- Embedding of `"yes" if alias_expression else "no"` (rules.py line
124). -/
def deducedUsage (ae : Option (List RefChild)) : String :=
  if ae.isSome then "yes" else "no"

/-- The conformity test of rules.py line 130:
`alias_usage == "yes" and alias_expression
 or alias_usage == "no" and not alias_expression`. -/
def conformsUsage (u : String) (ae : Option (List RefChild)) : Bool :=
  if u = "yes" then ae.isSome
  else if u = "no" then !ae.isSome
  else false

/-- The description if/elif chain of rules.py lines 173-183; an unknown
style assigns no description at all. -/
def descriptionFor (style : String) : Option String :=
  if style = "consistent_file" then
    some "Column alias usage should be consistent within file."
  else if style = "consistent_clause" then
    some "Column alias usage should be consistent within clause."
  else if style = "always" then
    some "Column should always use an alias."
  else none

/-- The fix computation of rules.py lines 134-171 for a deviating
element: under a must-have decision a simple reference column gets an
insert-after edit on its `column_reference` node (whitespace, `AS`,
whitespace, the extracted identifier token); under a must-not-have
decision the `alias_expression` node is deleted; otherwise no fix. -/
def a001Fixes (u : String) (e : SelectClauseElement) : List LintFix :=
  if u = "yes" then
    match e.column_reference with
    | some ref =>
      match columnIdentifier ref with
      | some tok =>
        [LintFix.create_after (Anchor.columnRef ref)
          [Token.whitespace, Token.keyword "AS", Token.whitespace,
            Token.identifier tok]]
      | none => []
    | none => []
  else if u = "no" then
    match e.alias_expression with
    | some ae => [LintFix.delete (Anchor.aliasExpr ae)]
    | none => []
  else []

/-- Evaluating an element with an unknown `alias_usage_style` reaches
the `LintResult` construction with `description` unbound: a Python
reference error. -/
inductive A001Error where
  | unboundDescription
deriving DecidableEq, Repr

/-- Loop state of `Rule_HNL_A001._eval`: the local `alias_usage`
variable, the `"alias_usage"` entry of the memory dict, and the
violations accumulated so far. -/
structure A001State where
  alias_usage : Option String
  memory : Option String
  violations : List LintResult
deriving DecidableEq, Repr

/-- One iteration of the element loop of `Rule_HNL_A001._eval`
(rules.py lines 118-192). -/
def a001Step (style : String) (st : A001State) (e : SelectClauseElement) :
    Except A001Error A001State :=
  let usageAndMem : String × Option String :=
    match st.alias_usage with
    | some u => (u, st.memory)
    | none => (deducedUsage e.alias_expression,
        some (deducedUsage e.alias_expression))
  let u := usageAndMem.1
  let mem := usageAndMem.2
  if conformsUsage u e.alias_expression then
    Except.ok (A001State.mk (some u) mem st.violations)
  else
    match descriptionFor style with
    | some d =>
      Except.ok (A001State.mk (some u) mem
        (st.violations ++ [LintResult.mk e d (a001Fixes u e)]))
    | none => Except.error A001Error.unboundDescription

/-- The element loop of `Rule_HNL_A001._eval`; a raised reference
error propagates out of the loop. -/
def a001Go (style : String) (es : List SelectClauseElement)
    (st : A001State) : Except A001Error A001State :=
  match es with
  | [] => Except.ok st
  | e :: rest =>
    Except.bind (a001Step style st e) fun st' => a001Go style rest st'

/-- Initial value of `alias_usage` (rules.py lines 112-116): read from
memory for `consistent_file`, fixed to `"yes"` for `always`, else
`None`. -/
def initUsage (style : String) (mem : Option String) : Option String :=
  if style = "consistent_file" then mem
  else if style = "always" then some "yes"
  else none

/-- Embedding of `Rule_HNL_A001._eval` on one `select_clause`: returns
the violation
list together with the `"alias_usage"` memory entry after the call, or
the reference error raised for an unknown style at a deviating column.
-/
def Rule_HNL_A001_eval (style : String) (mem : Option String)
    (c : Clause) : Except A001Error (List LintResult × Option String) :=
  Except.map (fun st => (st.violations, st.memory))
    (a001Go style c
      (A001State.mk (initUsage style mem) mem []))

/-- One file pass: the crawler invokes `Rule_HNL_A001._eval` on each
`select_clause` in document order, threading the same memory dict. -/
def Rule_HNL_A001_file (style : String) (cs : List Clause)
    (mem : Option String) :
    Except A001Error (List (List LintResult) × Option String) :=
  match cs with
  | [] => Except.ok ([], mem)
  | c :: rest =>
    Except.bind (Rule_HNL_A001_eval style mem c) fun res =>
      Except.map (fun res' => (res.1 :: res'.1, res'.2))
        (Rule_HNL_A001_file style rest res.2)

/-! ### Rule_HNL_A002 -/

/-- Quote characters stripped by `identifier.raw.strip("\x22'\x60[]")`
(rules.py line 304), recognised by code point: `"` (34), `'` (39),
backtick (96), `[` (91), `]` (93). -/
def isQuoteChar (c : Char) : Bool :=
  c.toNat = 34 || c.toNat = 39 || c.toNat = 96 || c.toNat = 91 ||
    c.toNat = 93

/-- Python `str.strip` with the quote-character set: drop the matching
characters from both ends. -/
def stripQuotes (s : String) : String :=
  String.mk
    (((s.data.dropWhile isQuoteChar).reverse.dropWhile isQuoteChar).reverse)

/-- Identifier extraction of `Rule_HNL_A002._eval` (rules.py lines
287-299): the alias identifier takes precedence (naked before quoted);
for a bare reference, quoted before last naked, and `None` when the
reference has no identifier children. -/
def a002Identifier (e : SelectClauseElement) : Option RefChild :=
  match e.alias_expression with
  | some ae =>
    match getChildNaked ae with
    | some n => some n
    | none => getChildQuoted ae
  | none =>
    match e.column_reference with
    | some ref => columnIdentifier ref
    | none => none

/-- Lines whose comments suppress the ordering rule (rules.py lines
276-280): the start lines of comments whose raw text is exactly
`-- noqa` or `-- noqa: HNL_A002`.  A comment is modelled as its raw
text paired with its start line. -/
def linesToIgnore (comments : List (String × Nat)) : List Nat :=
  comments.filterMap fun cm =>
    if cm.1 = "-- noqa" ∨ cm.1 = "-- noqa: HNL_A002" then some cm.2
    else none

/-- The `(identifier, clause_element)` list built by
`Rule_HNL_A002._eval` (rules.py lines 282-308): elements without an
extractable identifier are skipped, raw identifiers are stripped of
quote characters, and elements starting on a suppressed line are
excluded. -/
def a002Identifiers (ignore : List Nat) (c : Clause) :
    List (String × SelectClauseElement) :=
  c.filterMap fun e =>
    match a002Identifier e with
    | none => none
    | some tok =>
      if e.start_line ∈ ignore then none
      else some (stripQuotes tok.raw, e)

/-- Lexicographic comparison of code-point lists: the order Python uses
on strings. -/
def natListLt : List Nat → List Nat → Bool
  | [], [] => false
  | [], _ :: _ => true
  | _ :: _, [] => false
  | a :: as, b :: bs =>
    if a < b then true
    else if b < a then false
    else natListLt as bs

/-- Code point of the ASCII-lowercased character: `str.lower` on the
ASCII identifiers handled by the rule. -/
def lowerNat (n : Nat) : Nat :=
  if 65 ≤ n ∧ n ≤ 90 then n + 32 else n

/-- Embedding of `s.lower()` as a code-point list. -/
def lowerKey (s : String) : List Nat :=
  s.data.map fun c => lowerNat c.toNat

/-- Python `str.startswith`. -/
def strStartsWith (s p : String) : Bool :=
  p.data.isPrefixOf s.data

/-- Python `str.endswith`. -/
def strEndsWith (s p : String) : Bool :=
  p.data.reverse.isPrefixOf s.data.reverse

/-- Embedding of `custom_sort_key` (rules.py lines 326-341): priority
0 for a `BK`
prefix, else 1 for an `ID` suffix, else 2 for exactly `BKSourceSystem`
or `SourceSystemID`, else 4 for exactly `SourceSystemCode`, else 3;
ties broken by the lowercased identifier. -/
def custom_sort_key (item : String × SelectClauseElement) :
    Nat × List Nat :=
  let raw_string := item.1
  let priority : Nat :=
    if strStartsWith raw_string "BK" then 0
    else if strEndsWith raw_string "ID" then 1
    else if raw_string = "BKSourceSystem" ∨ raw_string = "SourceSystemID"
      then 2
    else if raw_string = "SourceSystemCode" then 4
    else 3
  (priority, lowerKey raw_string)

/-- The sort-key order: keys compared lexicographically, priority
first, then the lowercased identifier. -/
def sortKeyLE (a b : Nat × List Nat) : Bool :=
  if a.1 < b.1 then true
  else if b.1 < a.1 then false
  else !natListLt b.2 a.2

/-- The total preorder `sorted(identifiers, key=custom_sort_key)` sorts
by. -/
def itemLE (a b : String × SelectClauseElement) : Prop :=
  sortKeyLE (custom_sort_key a) (custom_sort_key b) = true

instance : DecidableRel itemLE := fun a b => by
  unfold itemLE
  infer_instance

/-- Embedding of `Rule_HNL_A002._eval` (rules.py lines 251-324) on one
`select_clause`: stably sort the collected `(identifier, element)`
pairs by `custom_sort_key` and report every pair that differs from the
sorted list at the same index.  The comments of the enclosing statement
are passed alongside the clause. -/
def Rule_HNL_A002_eval (comments : List (String × Nat)) (c : Clause) :
    List LintResult :=
  let ignore := linesToIgnore comments
  let identifiers := a002Identifiers ignore c
  let sorted_identifiers := List.insertionSort itemLE identifiers
  let changed_identifiers :=
    (identifiers.zip sorted_identifiers).filter fun p =>
      decide (p.1 ≠ p.2)
  changed_identifiers.map fun p =>
    { anchor := p.1.2,
      description := "Column should be ordered based on ordering scheme.",
      fixes := [] }

/-! ### Plugin registration -/

/-- The two rule classes defined in rules.py. -/
inductive RuleId where
  | HNL_A001
  | HNL_A002
deriving DecidableEq, Repr

/-- The `get_rules` plugin hook (`__init__.py` lines 12-18): it imports
and returns only `Rule_HNL_A001`. -/
def get_rules : List RuleId := [RuleId.HNL_A001]

/-! ### The external fixer -/

/-- The identifier child carried by an inserted token, if any. -/
def tokenIdentChild : Token → Option RefChild
  | Token.identifier c => some c
  | _ => none

/-- Modelled from the spec: the external fixer (host-side, not in this
repository) applies each edit to the tree and re-parses.  An
insert-after edit anchored on the element's `column_reference`,
carrying whitespace, `AS`, whitespace and an identifier token, parses
back as an `alias_expression` holding that identifier; a delete edit
anchored on the `alias_expression` removes it. -/
def applyFixToElement (e : SelectClauseElement) (f : LintFix) :
    SelectClauseElement :=
  match f with
  | LintFix.create_after (Anchor.columnRef _) toks =>
    { e with alias_expression := some (toks.filterMap tokenIdentChild) }
  | LintFix.delete (Anchor.aliasExpr _) =>
    { e with alias_expression := none }
  | _ => e

/-- Modelled from the spec: apply a list of edits to one element. -/
def applyFixesToElement (e : SelectClauseElement) (fs : List LintFix) :
    SelectClauseElement :=
  fs.foldl applyFixToElement e

/-- Modelled from the spec: an element picks up the fixes of the
violation anchored on it, if any. -/
def applyResultElem (viols : List LintResult)
    (e : SelectClauseElement) : SelectClauseElement :=
  match viols.find? (fun r => decide (r.anchor = e)) with
  | some r => applyFixesToElement e r.fixes
  | none => e

/-- Modelled from the spec: the clause obtained by applying all
suggested fixes. -/
def applyResults (viols : List LintResult) (c : Clause) : Clause :=
  c.map (applyResultElem viols)

/-- The violation a single element contributes once the decision `u` is
fixed. -/
def violFor (style u : String) (e : SelectClauseElement) :
    List LintResult :=
  if conformsUsage u e.alias_expression then []
  else
    match descriptionFor style with
    | some d => [LintResult.mk e d (a001Fixes u e)]
    | none => []

/-- The violations an element list contributes once the decision `u` is
fixed. -/
def violsOf (style u : String) :
    List SelectClauseElement → List LintResult
  | [] => []
  | e :: es => violFor style u e ++ violsOf style u es

/-- The `"alias_usage"` memory entry after one clause evaluation under
`consistent_file`. -/
def clauseUsage (mem : Option String) (c : Clause) : Option String :=
  match mem with
  | some u => some u
  | none =>
    match c with
    | [] => none
    | e :: _ => some (deducedUsage e.alias_expression)

/-- The alias presence of the first column of the first non-empty
clause in the file. -/
def firstColumnUsage : List Clause → Option String
  | [] => none
  | c :: cs =>
    match c with
    | [] => firstColumnUsage cs
    | e :: _ => some (deducedUsage e.alias_expression)

/-- Violations the `consistent_file` rule emits once the stored
decision is `"no"`: exactly the aliased columns, each carrying a fix
deleting the `alias_expression` node. -/
def removalViols : Clause → List LintResult
  | [] => []
  | e :: es =>
    (match e.alias_expression with
      | some ae =>
        [LintResult.mk e
          "Column alias usage should be consistent within file."
          [LintFix.delete (Anchor.aliasExpr ae)]]
      | none => []) ++ removalViols es

/-- The select clause of the spec's ordering example, with naked
references and one element per line. -/
def ordClause : Clause :=
  [SelectClauseElement.mk (some [RefChild.naked "AmountInvoiced"])
      none 1 1,
    SelectClauseElement.mk (some [RefChild.naked "SourceSystemCode"])
      none 2 2,
    SelectClauseElement.mk (some [RefChild.naked "InvoicedDate"])
      none 3 3,
    SelectClauseElement.mk (some [RefChild.naked "BKSourceSystem"])
      none 4 4,
    SelectClauseElement.mk (some [RefChild.naked "BKInvoicedDate"])
      none 5 5]

theorem except_bind_ok {α β ε : Type} (a : α) (f : α → Except ε β) :
    Except.bind (Except.ok a) f = f a := rfl

theorem except_bind_error {α β ε : Type} (err : ε)
    (f : α → Except ε β) :
    Except.bind (Except.error err : Except ε α) f
      = Except.error err := rfl

theorem except_map_ok {α β ε : Type} (f : α → β) (a : α) :
    Except.map f (Except.ok a : Except ε α) = Except.ok (f a) := rfl

theorem except_map_error {α β ε : Type} (f : α → β) (err : ε) :
    Except.map f (Except.error err : Except ε α)
      = Except.error err := rfl

/-! ### Characterisation of the A001 element loop -/

theorem a001Step_of_some (style u d : String) (st : A001State)
    (e : SelectClauseElement) (hu : st.alias_usage = some u)
    (hd : descriptionFor style = some d) :
    a001Step style st e
      = Except.ok (A001State.mk (some u) st.memory
          (st.violations ++ violFor style u e)) := by
  unfold a001Step violFor
  rw [hu, hd]
  by_cases hc : conformsUsage u e.alias_expression = true
  · simp [hc]
  · simp [hc]

theorem a001Step_of_none (style : String) (st : A001State)
    (e : SelectClauseElement) (hu : st.alias_usage = none) :
    a001Step style st e
      = Except.ok (A001State.mk (some (deducedUsage e.alias_expression))
          (some (deducedUsage e.alias_expression)) st.violations) := by
  have hc : conformsUsage (deducedUsage e.alias_expression)
      e.alias_expression = true := by
    cases h : e.alias_expression <;> simp [deducedUsage, conformsUsage, h]
  unfold a001Step
  rw [hu]
  simp [hc]

theorem a001Step_error (style u : String) (st : A001State)
    (e : SelectClauseElement) (hu : st.alias_usage = some u)
    (hd : descriptionFor style = none)
    (hc : conformsUsage u e.alias_expression = false) :
    a001Step style st e = Except.error A001Error.unboundDescription := by
  unfold a001Step
  rw [hu, hd]
  simp [hc]

theorem a001Go_of_some (style u d : String)
    (hd : descriptionFor style = some d)
    (es : List SelectClauseElement) :
    ∀ st : A001State, st.alias_usage = some u →
      a001Go style es st
        = Except.ok (A001State.mk (some u) st.memory
            (st.violations ++ violsOf style u es)) := by
  induction es with
  | nil =>
    intro st hu
    cases st with
    | mk a m v =>
      simp only [A001State.alias_usage] at hu
      subst hu
      simp [a001Go, violsOf]
  | cons e rest ih =>
    intro st hu
    rw [a001Go, a001Step_of_some style u d st e hu hd, except_bind_ok]
    rw [ih (A001State.mk (some u) st.memory
      (st.violations ++ violFor style u e)) rfl]
    simp [violsOf, List.append_assoc]

theorem a001Go_error (style u : String)
    (hd : descriptionFor style = none)
    (es : List SelectClauseElement) :
    ∀ st : A001State, st.alias_usage = some u →
      (∃ e ∈ es, conformsUsage u e.alias_expression = false) →
      a001Go style es st = Except.error A001Error.unboundDescription := by
  induction es with
  | nil =>
    intro st _ h
    rcases h with ⟨e, he, _⟩
    cases he
  | cons e rest ih =>
    intro st hu h
    by_cases hc : conformsUsage u e.alias_expression = true
    · have hstep : a001Step style st e
          = Except.ok (A001State.mk (some u) st.memory st.violations) := by
        unfold a001Step
        rw [hu]
        simp [hc]
      rw [a001Go, hstep, except_bind_ok]
      apply ih (A001State.mk (some u) st.memory st.violations) rfl
      rcases h with ⟨e', he', hc'⟩
      rcases List.mem_cons.mp he' with rfl | hmem
      · rw [hc] at hc'
        cases hc'
      · exact ⟨e', hmem, hc'⟩
    · rw [a001Go, a001Step_error style u st e hu hd
        (by simpa using hc), except_bind_error]

theorem a001Eval_nil (style : String) (mem : Option String) :
    Rule_HNL_A001_eval style mem [] = Except.ok ([], mem) := rfl

theorem a001Eval_of_some (style u d : String) (mem : Option String)
    (c : Clause) (hinit : initUsage style mem = some u)
    (hd : descriptionFor style = some d) :
    Rule_HNL_A001_eval style mem c
      = Except.ok (violsOf style u c, mem) := by
  unfold Rule_HNL_A001_eval
  rw [a001Go_of_some style u d hd c
    (A001State.mk (initUsage style mem) mem []) hinit, except_map_ok]
  rfl

theorem a001Eval_of_none_cons (style u d : String) (mem : Option String)
    (e : SelectClauseElement) (rest : Clause)
    (hinit : initUsage style mem = none)
    (hd : descriptionFor style = some d)
    (hu : u = deducedUsage e.alias_expression) :
    Rule_HNL_A001_eval style mem (e :: rest)
      = Except.ok (violsOf style u rest, some u) := by
  subst hu
  unfold Rule_HNL_A001_eval
  rw [a001Go, a001Step_of_none style
    (A001State.mk (initUsage style mem) mem []) e hinit, except_bind_ok]
  rw [a001Go_of_some style (deducedUsage e.alias_expression) d hd rest
    (A001State.mk (some (deducedUsage e.alias_expression))
      (some (deducedUsage e.alias_expression)) []) rfl, except_map_ok]
  rfl

theorem a001Eval_consistent_file (mem : Option String) (c : Clause) :
    ∃ viols, Rule_HNL_A001_eval "consistent_file" mem c
      = Except.ok (viols, clauseUsage mem c) := by
  cases mem with
  | some u =>
    exact ⟨violsOf "consistent_file" u c,
      a001Eval_of_some "consistent_file" u
        "Column alias usage should be consistent within file."
        (some u) c rfl rfl⟩
  | none =>
    cases c with
    | nil => exact ⟨[], a001Eval_nil _ _⟩
    | cons e rest =>
      exact ⟨violsOf "consistent_file"
          (deducedUsage e.alias_expression) rest,
        a001Eval_of_none_cons "consistent_file"
          (deducedUsage e.alias_expression)
          "Column alias usage should be consistent within file."
          none e rest rfl rfl rfl⟩

theorem clauseUsage_firstColumn (mem : Option String) (c : Clause)
    (cs : List Clause) :
    Option.orElse (clauseUsage mem c) (fun _ => firstColumnUsage cs)
      = Option.orElse mem (fun _ => firstColumnUsage (c :: cs)) := by
  cases mem <;> cases c <;> rfl

theorem removalViols_eq (c : Clause) :
    violsOf "consistent_file" "no" c = removalViols c := by
  induction c with
  | nil => rfl
  | cons e es ih =>
    rw [violsOf, removalViols, ih]
    congr 1
    cases h : e.alias_expression with
    | none => simp [violFor, conformsUsage, h]
    | some ae =>
      simp [violFor, conformsUsage, h, descriptionFor, a001Fixes]

/-- C1: under the `consistent_file` policy the `"alias_usage"` memory
entry is read at the start of every clause evaluation; over a whole
file pass it ends up being the initial entry if one was present, else
the alias presence of the first column encountered in the file — it is
set exactly once and never overwritten.  Moreover a clause evaluated
with a stored decision `u` keeps the memory at `u` and flags exactly
the columns deviating from `u`. -/
theorem hnl_a001_consistent_file_memory_set_once
    (cs : List Clause) (mem : Option String) :
    (∃ viols, Rule_HNL_A001_file "consistent_file" cs mem
        = Except.ok (viols, Option.orElse mem fun _ =>
            firstColumnUsage cs))
    ∧ (∀ (u : String) (c : Clause),
        Rule_HNL_A001_eval "consistent_file" (some u) c
          = Except.ok (violsOf "consistent_file" u c, some u)) := by
  constructor
  · induction cs generalizing mem with
    | nil =>
      refine ⟨[], ?_⟩
      cases mem <;> rfl
    | cons c rest ih =>
      obtain ⟨v, hv⟩ := a001Eval_consistent_file mem c
      obtain ⟨vs, hvs⟩ := ih (clauseUsage mem c)
      refine ⟨v :: vs, ?_⟩
      simp only [Rule_HNL_A001_file, hv, except_bind_ok, hvs,
        except_map_ok]
      rw [clauseUsage_firstColumn]
  · intro u c
    exact a001Eval_of_some "consistent_file" u
      "Column alias usage should be consistent within file."
      (some u) c rfl rfl

/-- C2 counterexample: a `consistent_file` pass over two one-column
clauses, both columns unaliased, produces zero violations — the claim
as stated demands that every unaliased column be flagged. -/
theorem hnl_a001_no_decision_counterexample :
    Rule_HNL_A001_file "consistent_file"
      [[SelectClauseElement.mk (some [RefChild.naked "a"]) none 1 1],
        [SelectClauseElement.mk (some [RefChild.naked "b"]) none 2 2]]
      none
      = Except.ok ([[], []], some "no") := by rfl

/-- C2 (amended): under `consistent_file`, if the first clause's first
column has no alias, then unaliased columns conform and are not
flagged, while every aliased column anywhere in either clause is
flagged with a removal fix; the decision from clause 1 governs
clause 2. -/
theorem hnl_a001_consistent_file_removal
    (e : SelectClauseElement) (es c2 : Clause)
    (h : e.alias_expression = none) :
    Rule_HNL_A001_file "consistent_file" [e :: es, c2] none
      = Except.ok ([removalViols (e :: es), removalViols c2],
          some "no") := by
  have hded : deducedUsage e.alias_expression = "no" := by
    rw [h]; rfl
  have h1 : Rule_HNL_A001_eval "consistent_file" none (e :: es)
      = Except.ok (violsOf "consistent_file" "no" es, some "no") := by
    have := a001Eval_of_none_cons "consistent_file" "no"
      "Column alias usage should be consistent within file."
      none e es rfl rfl hded.symm
    exact this
  have h2 : Rule_HNL_A001_eval "consistent_file" (some "no") c2
      = Except.ok (violsOf "consistent_file" "no" c2, some "no") :=
    a001Eval_of_some "consistent_file" "no"
      "Column alias usage should be consistent within file."
      (some "no") c2 rfl rfl
  have hremoval1 : removalViols (e :: es)
      = violsOf "consistent_file" "no" es := by
    rw [removalViols, h, ← removalViols_eq]
    rfl
  simp only [Rule_HNL_A001_file, h1, except_bind_ok, h2,
    except_map_ok, hremoval1, removalViols_eq]

/-- C2 witness: a concrete two-clause file whose first column is
unaliased; the aliased columns in each clause are flagged for
removal. -/
theorem hnl_a001_consistent_file_removal_witness :
    Rule_HNL_A001_file "consistent_file"
      [[SelectClauseElement.mk (some [RefChild.naked "a"]) none 1 1,
          SelectClauseElement.mk (some [RefChild.naked "b"])
            (some [RefChild.naked "b2"]) 2 2],
        [SelectClauseElement.mk (some [RefChild.naked "c"])
          (some [RefChild.naked "c2"]) 3 3]]
      none
      = Except.ok
          ([removalViols
              [SelectClauseElement.mk (some [RefChild.naked "a"]) none
                1 1,
                SelectClauseElement.mk (some [RefChild.naked "b"])
                  (some [RefChild.naked "b2"]) 2 2],
            removalViols
              [SelectClauseElement.mk (some [RefChild.naked "c"])
                (some [RefChild.naked "c2"]) 3 3]],
            some "no") :=
  hnl_a001_consistent_file_removal
    (SelectClauseElement.mk (some [RefChild.naked "a"]) none 1 1)
    [SelectClauseElement.mk (some [RefChild.naked "b"])
      (some [RefChild.naked "b2"]) 2 2]
    [SelectClauseElement.mk (some [RefChild.naked "c"])
      (some [RefChild.naked "c2"]) 3 3]
    rfl

theorem descriptionFor_unknown (style : String)
    (h1 : style ≠ "consistent_file") (h2 : style ≠ "consistent_clause")
    (h3 : style ≠ "always") : descriptionFor style = none := by
  unfold descriptionFor
  rw [if_neg h1, if_neg h2, if_neg h3]

theorem initUsage_unknown (style : String) (mem : Option String)
    (h1 : style ≠ "consistent_file") (h3 : style ≠ "always") :
    initUsage style mem = none := by
  unfold initUsage
  rw [if_neg h1, if_neg h3]

theorem conformsUsage_deduced_ne (a b : Option (List RefChild))
    (h : b.isSome ≠ a.isSome) :
    conformsUsage (deducedUsage a) b = false := by
  cases a <;> cases b <;> simp_all [deducedUsage, conformsUsage]

/-- C9: for any `alias_usage_style` outside the three known values,
evaluating a clause containing a column that deviates from the
decision inferred from the first column leaves `description` unbound,
so the `LintResult` construction raises a reference error. -/
theorem hnl_a001_unknown_style_reference_error
    (style : String) (mem : Option String)
    (e : SelectClauseElement) (es : Clause)
    (hstyle : style ≠ "always" ∧ style ≠ "consistent_clause"
      ∧ style ≠ "consistent_file")
    (hdev : ∃ e' ∈ es,
      e'.alias_expression.isSome ≠ e.alias_expression.isSome) :
    Rule_HNL_A001_eval style mem (e :: es)
      = Except.error A001Error.unboundDescription := by
  obtain ⟨h3, h2, h1⟩ := hstyle
  have hd := descriptionFor_unknown style h1 h2 h3
  have hinit := initUsage_unknown style mem h1 h3
  have hex : ∃ e' ∈ es,
      conformsUsage (deducedUsage e.alias_expression)
        e'.alias_expression = false := by
    rcases hdev with ⟨e', he', hne⟩
    exact ⟨e', he', conformsUsage_deduced_ne _ _ hne⟩
  unfold Rule_HNL_A001_eval
  rw [a001Go, a001Step_of_none style
    (A001State.mk (initUsage style mem) mem []) e hinit,
    except_bind_ok]
  rw [a001Go_error style (deducedUsage e.alias_expression) hd es
    (A001State.mk (some (deducedUsage e.alias_expression))
      (some (deducedUsage e.alias_expression)) []) rfl hex,
    except_map_error]

/-- C9 witness: the misspelled style `file_consistent` with a
two-column clause whose second column deviates from the first raises
the reference error. -/
theorem hnl_a001_unknown_style_reference_error_witness :
    Rule_HNL_A001_eval "file_consistent" none
      [SelectClauseElement.mk (some [RefChild.naked "a"]) none 1 1,
        SelectClauseElement.mk (some [RefChild.naked "b"])
          (some [RefChild.naked "b"]) 2 2]
      = Except.error A001Error.unboundDescription :=
  hnl_a001_unknown_style_reference_error "file_consistent" none
    (SelectClauseElement.mk (some [RefChild.naked "a"]) none 1 1)
    [SelectClauseElement.mk (some [RefChild.naked "b"])
      (some [RefChild.naked "b"]) 2 2]
    ⟨by decide, by decide, by decide⟩
    ⟨SelectClauseElement.mk (some [RefChild.naked "b"])
        (some [RefChild.naked "b"]) 2 2,
      List.mem_singleton.mpr rfl, by decide⟩

theorem mem_a002Identifiers (ignore : List Nat) (c : Clause)
    (p : String × SelectClauseElement)
    (hp : p ∈ a002Identifiers ignore c) :
    ∃ tok, a002Identifier p.2 = some tok
      ∧ p.1 = stripQuotes tok.raw ∧ p.2 ∈ c
      ∧ p.2.start_line ∉ ignore := by
  unfold a002Identifiers at hp
  rw [List.mem_filterMap] at hp
  obtain ⟨e, he, hfe⟩ := hp
  split at hfe
  · exact absurd hfe (by simp)
  · rename_i tok htok
    split at hfe
    · exact absurd hfe (by simp)
    · rename_i hline
      injection hfe with hfe
      subst hfe
      exact ⟨tok, htok, rfl, he, hline⟩

theorem mem_a002Eval_anchor (comments : List (String × Nat))
    (c : Clause) (r : LintResult)
    (hr : r ∈ Rule_HNL_A002_eval comments c) :
    ∃ p ∈ a002Identifiers (linesToIgnore comments) c,
      r.anchor = p.2 := by
  unfold Rule_HNL_A002_eval at hr
  rw [List.mem_map] at hr
  obtain ⟨q, hq, hqr⟩ := hr
  rw [List.mem_filter] at hq
  obtain ⟨hqz, _⟩ := hq
  obtain ⟨q1, q2⟩ := q
  have hmem := List.of_mem_zip hqz
  subst hqr
  exact ⟨q1, hmem.1, rfl⟩

/-- C4 (amended): a column whose reference node has neither a quoted
nor a naked identifier child is excluded from the ordering rule only
when it also lacks an alias (the ordering rule prefers the alias
identifier, so an aliased such column is still considered, via its
alias); the alias rule never skips it: deviating under a must-have
decision (hence unaliased) it is flagged with a fix-less `LintResult`,
and deviating under a must-not-have decision (hence aliased) it is
flagged with an alias-removal fix. -/
theorem hnl_unextractable_column_behaviour
    (comments : List (String × Nat)) (c : Clause)
    (e : SelectClauseElement) (ref : List RefChild)
    (href : e.column_reference = some ref)
    (hnaked : getChildNaked ref = none)
    (hquoted : getChildQuoted ref = none) :
    (e.alias_expression = none →
      (∀ r ∈ Rule_HNL_A002_eval comments c, r.anchor ≠ e)
      ∧ (∀ mem, Rule_HNL_A001_eval "always" mem [e]
          = Except.ok
              ([LintResult.mk e "Column should always use an alias."
                  []],
                mem)))
    ∧ (∀ ae, e.alias_expression = some ae →
        a002Identifier e
          = (match getChildNaked ae with
             | some n => some n
             | none => getChildQuoted ae)
        ∧ Rule_HNL_A001_eval "consistent_file" (some "no") [e]
          = Except.ok
              ([LintResult.mk e
                  "Column alias usage should be consistent within file."
                  [LintFix.delete (Anchor.aliasExpr ae)]],
                some "no")) := by
  constructor
  · intro halias
    have hid : a002Identifier e = none := by
      simp [a002Identifier, columnIdentifier, halias, href, hnaked,
        hquoted]
    constructor
    · intro r hr heq
      obtain ⟨p, hp, hanch⟩ := mem_a002Eval_anchor comments c r hr
      obtain ⟨tok, htok, -, -, -⟩ :=
        mem_a002Identifiers (linesToIgnore comments) c p hp
      rw [hanch] at heq
      rw [heq, hid] at htok
      cases htok
    · intro mem
      rw [a001Eval_of_some "always" "yes"
        "Column should always use an alias." mem [e] rfl rfl]
      simp [violsOf, violFor, conformsUsage, halias, descriptionFor,
        a001Fixes, href, columnIdentifier, hnaked, hquoted]
  · intro ae hae
    constructor
    · simp [a002Identifier, hae]
    · rw [a001Eval_of_some "consistent_file" "no"
        "Column alias usage should be consistent within file."
        (some "no") [e] rfl rfl]
      simp [violsOf, violFor, conformsUsage, hae, descriptionFor,
        a001Fixes]

/-- C4 witness: the unaliased positional column `$1` anchors no A002
result and gets a fix-less A001 result under `always`; the aliased
column `$1 AS foo` is extracted by the ordering rule through its alias
and gets a delete fix under a must-not-have decision. -/
theorem hnl_unextractable_column_behaviour_witness :
    (∀ r ∈ Rule_HNL_A002_eval []
        [SelectClauseElement.mk (some [RefChild.other "$1"]) none 1 7],
      r.anchor ≠ SelectClauseElement.mk (some [RefChild.other "$1"])
        none 1 7)
    ∧ Rule_HNL_A001_eval "always" none
        [SelectClauseElement.mk (some [RefChild.other "$1"]) none 1 7]
      = Except.ok
          ([LintResult.mk
              (SelectClauseElement.mk (some [RefChild.other "$1"])
                none 1 7)
              "Column should always use an alias." []],
            none)
    ∧ a002Identifier
        (SelectClauseElement.mk (some [RefChild.other "$1"])
          (some [RefChild.naked "foo"]) 1 8)
      = some (RefChild.naked "foo")
    ∧ Rule_HNL_A001_eval "consistent_file" (some "no")
        [SelectClauseElement.mk (some [RefChild.other "$1"])
          (some [RefChild.naked "foo"]) 1 8]
      = Except.ok
          ([LintResult.mk
              (SelectClauseElement.mk (some [RefChild.other "$1"])
                (some [RefChild.naked "foo"]) 1 8)
              "Column alias usage should be consistent within file."
              [LintFix.delete (Anchor.aliasExpr
                [RefChild.naked "foo"])]],
            some "no") := by
  refine ⟨?_, ?_, ?_, ?_⟩
  · exact ((hnl_unextractable_column_behaviour []
      [SelectClauseElement.mk (some [RefChild.other "$1"]) none 1 7]
      (SelectClauseElement.mk (some [RefChild.other "$1"]) none 1 7)
      [RefChild.other "$1"] rfl rfl rfl).1 rfl).1
  · exact ((hnl_unextractable_column_behaviour []
      [SelectClauseElement.mk (some [RefChild.other "$1"]) none 1 7]
      (SelectClauseElement.mk (some [RefChild.other "$1"]) none 1 7)
      [RefChild.other "$1"] rfl rfl rfl).1 rfl).2 none
  · exact (((hnl_unextractable_column_behaviour [] []
      (SelectClauseElement.mk (some [RefChild.other "$1"])
        (some [RefChild.naked "foo"]) 1 8)
      [RefChild.other "$1"] rfl rfl rfl).2
      [RefChild.naked "foo"] rfl).1).trans rfl
  · exact ((hnl_unextractable_column_behaviour [] []
      (SelectClauseElement.mk (some [RefChild.other "$1"])
        (some [RefChild.naked "foo"]) 1 8)
      [RefChild.other "$1"] rfl rfl rfl).2
      [RefChild.naked "foo"] rfl).2

/-- C4 counterexample: the alias rule does produce a `LintResult` for a
deviating column whose reference has no identifier children — the
claim says neither rule produces one. -/
theorem hnl_unextractable_flagged_counterexample :
    Rule_HNL_A001_eval "always" none
      [SelectClauseElement.mk (some [RefChild.other "$1"]) none 1 7]
      = Except.ok
          ([LintResult.mk
              (SelectClauseElement.mk (some [RefChild.other "$1"])
                none 1 7)
              "Column should always use an alias." []],
            none) := by rfl

/-- C5 counterexample: for the qualified reference `"t".col` (quoted
qualifier) the extracted identifier is the qualifier `t`, not `col` —
the claim says the extracted identifier is never the qualifier. -/
theorem hnl_identifier_extraction_counterexample :
    Option.map (fun tok => stripQuotes tok.raw)
      (columnIdentifier
        [RefChild.quoted "\"t\"", RefChild.other ".",
          RefChild.naked "col"])
      = some "t" := by rfl

/-- C5 (amended): if the reference has a quoted-identifier child the
extracted identifier is the first such child — which for a quoted
qualifier is the qualifier itself — otherwise it is the last
naked-identifier child, so `t.col` with a naked qualifier extracts
`col`; the bare-reference path of the ordering rule extracts exactly
as the alias rule does. -/
theorem hnl_identifier_extraction_shape (qual col : String)
    (ref : List RefChild) (l i : Nat) :
    columnIdentifier
        [RefChild.naked qual, RefChild.other ".", RefChild.naked col]
      = some (RefChild.naked col)
    ∧ columnIdentifier
        [RefChild.quoted qual, RefChild.other ".", RefChild.naked col]
      = some (RefChild.quoted qual)
    ∧ a002Identifier (SelectClauseElement.mk (some ref) none l i)
      = columnIdentifier ref :=
  ⟨rfl, rfl, rfl⟩

/-- C6 (amended): for a simple reference column lacking an alias under
a must-have decision the synthesized fix is a single insert-after edit
anchored on the `column_reference` node, inserting whitespace, the
keyword `AS`, whitespace, and the extracted identifier token; for a
quoted identifier the token is the quoted identifier itself, quote
characters intact. -/
theorem hnl_a001_add_alias_fix_shape (mem : Option String)
    (ref : List RefChild) (tok : RefChild) (l i : Nat)
    (hid : columnIdentifier ref = some tok) :
    Rule_HNL_A001_eval "always" mem
        [SelectClauseElement.mk (some ref) none l i]
      = Except.ok
          ([LintResult.mk (SelectClauseElement.mk (some ref) none l i)
              "Column should always use an alias."
              [LintFix.create_after (Anchor.columnRef ref)
                [Token.whitespace, Token.keyword "AS", Token.whitespace,
                  Token.identifier tok]]],
            mem)
    ∧ columnIdentifier [RefChild.quoted "\"My Col\""]
      = some (RefChild.quoted "\"My Col\"") := by
  constructor
  · rw [a001Eval_of_some "always" "yes"
      "Column should always use an alias." mem _ rfl rfl]
    simp [violsOf, violFor, conformsUsage, descriptionFor, a001Fixes,
      hid]
  · rfl

/-- C6 witness: the quoted column `"My Col"` gets the four-token
insert-after fix on its reference node. -/
theorem hnl_a001_add_alias_fix_shape_witness :
    Rule_HNL_A001_eval "always" none
        [SelectClauseElement.mk
          (some [RefChild.quoted "\"My Col\""]) none 1 3]
      = Except.ok
          ([LintResult.mk
              (SelectClauseElement.mk
                (some [RefChild.quoted "\"My Col\""]) none 1 3)
              "Column should always use an alias."
              [LintFix.create_after
                (Anchor.columnRef [RefChild.quoted "\"My Col\""])
                [Token.whitespace, Token.keyword "AS", Token.whitespace,
                  Token.identifier (RefChild.quoted "\"My Col\"")]]],
            none)
    ∧ columnIdentifier [RefChild.quoted "\"My Col\""]
      = some (RefChild.quoted "\"My Col\"") :=
  hnl_a001_add_alias_fix_shape none [RefChild.quoted "\"My Col\""]
    (RefChild.quoted "\"My Col\"") 1 3 rfl

/-- C6 counterexample: the inserted alias token for the quoted column
`"My Col"` is the quoted identifier with its quotes intact, not the
stripped text `My Col` the claim describes. -/
theorem hnl_a001_quoted_alias_counterexample :
    Rule_HNL_A001_eval "always" none
        [SelectClauseElement.mk
          (some [RefChild.quoted "\"My Col\""]) none 1 4]
      = Except.ok
          ([LintResult.mk
              (SelectClauseElement.mk
                (some [RefChild.quoted "\"My Col\""]) none 1 4)
              "Column should always use an alias."
              [LintFix.create_after
                (Anchor.columnRef [RefChild.quoted "\"My Col\""])
                [Token.whitespace, Token.keyword "AS", Token.whitespace,
                  Token.identifier (RefChild.quoted "\"My Col\"")]]],
            none)
    ∧ (RefChild.quoted "\"My Col\"").raw ≠ "My Col" :=
  ⟨rfl, by decide⟩

/-- C10: the `get_rules` plugin hook registers exactly
`Rule_HNL_A001`; `Rule_HNL_A002` is never registered, so the crawler
never invokes the ordering rule. -/
theorem hnl_get_rules_registers_only_a001 :
    get_rules = [RuleId.HNL_A001] ∧ RuleId.HNL_A002 ∉ get_rules :=
  ⟨rfl, by decide⟩

theorem mem_linesToIgnore (comments : List (String × Nat))
    (raw : String) (line : Nat) (hc : (raw, line) ∈ comments)
    (hraw : raw = "-- noqa" ∨ raw = "-- noqa: HNL_A002") :
    line ∈ linesToIgnore comments := by
  unfold linesToIgnore
  rw [List.mem_filterMap]
  exact ⟨(raw, line), hc, by rw [if_pos hraw]⟩

/-- C8: a column element starting on a line bearing a comment whose
raw text is exactly `-- noqa` or `-- noqa: HNL_A002` is excluded from
the observed sequence, from the canonical (sorted) sequence, and never
anchors an ordering violation. -/
theorem hnl_a002_noqa_suppression (comments : List (String × Nat))
    (c : Clause) (e : SelectClauseElement) (raw : String)
    (hc : (raw, e.start_line) ∈ comments)
    (hraw : raw = "-- noqa" ∨ raw = "-- noqa: HNL_A002") :
    (∀ p ∈ a002Identifiers (linesToIgnore comments) c, p.2 ≠ e)
    ∧ (∀ p ∈ List.insertionSort itemLE
        (a002Identifiers (linesToIgnore comments) c), p.2 ≠ e)
    ∧ (∀ r ∈ Rule_HNL_A002_eval comments c, r.anchor ≠ e) := by
  have hline := mem_linesToIgnore comments raw e.start_line hc hraw
  have hobs : ∀ p ∈ a002Identifiers (linesToIgnore comments) c,
      p.2 ≠ e := by
    intro p hp heq
    obtain ⟨tok, -, -, -, hnot⟩ :=
      mem_a002Identifiers (linesToIgnore comments) c p hp
    rw [heq] at hnot
    exact hnot hline
  refine ⟨hobs, ?_, ?_⟩
  · intro p hp
    exact hobs p
      ((List.perm_insertionSort itemLE _).mem_iff.mp hp)
  · intro r hr heq
    obtain ⟨p, hp, hanch⟩ := mem_a002Eval_anchor comments c r hr
    exact hobs p hp (by rw [← hanch, heq])

/-- C8 witness: the second column of a misordered clause is suppressed
by a `-- noqa: HNL_A002` comment on its line, so it never appears. -/
theorem hnl_a002_noqa_suppression_witness :
    (∀ p ∈ a002Identifiers
        (linesToIgnore [("-- noqa: HNL_A002", 2)])
        [SelectClauseElement.mk (some [RefChild.naked "b"]) none 1 1,
          SelectClauseElement.mk (some [RefChild.naked "a"]) none 2 2],
      p.2 ≠ SelectClauseElement.mk (some [RefChild.naked "a"]) none
        2 2)
    ∧ (∀ p ∈ List.insertionSort itemLE
        (a002Identifiers (linesToIgnore [("-- noqa: HNL_A002", 2)])
          [SelectClauseElement.mk (some [RefChild.naked "b"]) none 1 1,
            SelectClauseElement.mk (some [RefChild.naked "a"]) none
              2 2]),
      p.2 ≠ SelectClauseElement.mk (some [RefChild.naked "a"]) none
        2 2)
    ∧ (∀ r ∈ Rule_HNL_A002_eval [("-- noqa: HNL_A002", 2)]
        [SelectClauseElement.mk (some [RefChild.naked "b"]) none 1 1,
          SelectClauseElement.mk (some [RefChild.naked "a"]) none 2 2],
      r.anchor ≠ SelectClauseElement.mk (some [RefChild.naked "a"])
        none 2 2) :=
  hnl_a002_noqa_suppression [("-- noqa: HNL_A002", 2)]
    [SelectClauseElement.mk (some [RefChild.naked "b"]) none 1 1,
      SelectClauseElement.mk (some [RefChild.naked "a"]) none 2 2]
    (SelectClauseElement.mk (some [RefChild.naked "a"]) none 2 2)
    "-- noqa: HNL_A002" (List.mem_singleton.mpr rfl) (Or.inr rfl)

theorem natListLt_asymm (xs ys : List Nat)
    (h : natListLt xs ys = true) : natListLt ys xs = false := by
  induction xs generalizing ys with
  | nil =>
    cases ys with
    | nil => cases h
    | cons b bs => rfl
  | cons a as ih =>
    cases ys with
    | nil => cases h
    | cons b bs =>
      simp only [natListLt] at h ⊢
      rcases Nat.lt_trichotomy a b with hab | hab | hab
      · rw [if_neg (Nat.lt_asymm hab), if_pos hab]
      · subst hab
        rw [if_neg (Nat.lt_irrefl a)] at h
        rw [if_neg (Nat.lt_irrefl a)] at h
        rw [if_neg (Nat.lt_irrefl a)]
        rw [if_neg (Nat.lt_irrefl a)]
        exact ih bs h
      · rw [if_neg (Nat.lt_asymm hab), if_pos hab] at h
        cases h

theorem natListLt_le_trans (xs ys zs : List Nat)
    (h1 : natListLt ys xs = false) (h2 : natListLt zs ys = false) :
    natListLt zs xs = false := by
  induction xs generalizing ys zs with
  | nil =>
    cases zs with
    | nil => rfl
    | cons c cs => rfl
  | cons a as ih =>
    cases ys with
    | nil => cases h1
    | cons b bs =>
      cases zs with
      | nil => cases h2
      | cons c cs =>
        simp only [natListLt] at h1 h2 ⊢
        by_cases hba : b < a
        · rw [if_pos hba] at h1; cases h1
        · rw [if_neg hba] at h1
          by_cases hcb : c < b
          · rw [if_pos hcb] at h2; cases h2
          · rw [if_neg hcb] at h2
            have hca : ¬ c < a := by omega
            rw [if_neg hca]
            by_cases hab : a < b
            · have hac : a < c := by omega
              rw [if_pos hac]
            · rw [if_neg hab] at h1
              by_cases hbc : b < c
              · have hac : a < c := by omega
                rw [if_pos hac]
              · rw [if_neg hbc] at h2
                by_cases hac : a < c
                · rw [if_pos hac]
                · rw [if_neg hac]
                  exact ih bs cs h1 h2

theorem sortKeyLE_total (a b : Nat × List Nat) :
    sortKeyLE a b = true ∨ sortKeyLE b a = true := by
  unfold sortKeyLE
  rcases Nat.lt_trichotomy a.1 b.1 with h | h | h
  · left; simp [h]
  · have hn : ¬ a.1 < b.1 := by omega
    have hn' : ¬ b.1 < a.1 := by omega
    simp only [if_neg hn, if_neg hn']
    by_cases hlt : natListLt b.2 a.2 = true
    · right
      simp [natListLt_asymm _ _ hlt]
    · rw [Bool.not_eq_true] at hlt
      left
      simp [hlt]
  · right; simp [h]

theorem sortKeyLE_trans (a b c : Nat × List Nat)
    (h1 : sortKeyLE a b = true) (h2 : sortKeyLE b c = true) :
    sortKeyLE a c = true := by
  unfold sortKeyLE at h1 h2 ⊢
  by_cases h1a : a.1 < b.1
  · by_cases h2a : b.1 < c.1
    · simp [Nat.lt_trans h1a h2a]
    · rw [if_neg h2a] at h2
      by_cases h2b : c.1 < b.1
      · rw [if_pos h2b] at h2; cases h2
      · have : a.1 < c.1 := by omega
        simp [this]
  · rw [if_neg h1a] at h1
    by_cases h1b : b.1 < a.1
    · rw [if_pos h1b] at h1; cases h1
    · rw [if_neg h1b] at h1
      by_cases h2a : b.1 < c.1
      · have : a.1 < c.1 := by omega
        simp [this]
      · rw [if_neg h2a] at h2
        by_cases h2b : c.1 < b.1
        · rw [if_pos h2b] at h2; cases h2
        · rw [if_neg h2b] at h2
          have hac : ¬ a.1 < c.1 := by omega
          have hca : ¬ c.1 < a.1 := by omega
          rw [if_neg hac, if_neg hca]
          rw [Bool.not_eq_true'] at h1 h2 ⊢
          exact natListLt_le_trans a.2 b.2 c.2 h1 h2

theorem itemLE_total (a b : String × SelectClauseElement) :
    itemLE a b ∨ itemLE b a :=
  sortKeyLE_total (custom_sort_key a) (custom_sort_key b)

theorem itemLE_trans (a b c : String × SelectClauseElement)
    (h1 : itemLE a b) (h2 : itemLE b c) : itemLE a c :=
  sortKeyLE_trans (custom_sort_key a) (custom_sort_key b)
    (custom_sort_key c) h1 h2

/-- C7: the ordering rule stably sorts the collected
`(identifier, element)` pairs by `custom_sort_key` — the sorted list is
ordered under the key order and is a permutation of the input — and
reports exactly the pairs differing from the sorted sequence at the
same index; on `[AmountInvoiced, SourceSystemCode, InvoicedDate,
BKSourceSystem, BKInvoicedDate]` the canonical order is
`[BKInvoicedDate, BKSourceSystem, AmountInvoiced, InvoicedDate,
SourceSystemCode]` and all five positions differ, giving exactly five
violations. -/
theorem hnl_a002_ordering_comparator :
    (∀ ids : List (String × SelectClauseElement),
        List.Sorted itemLE (List.insertionSort itemLE ids)
        ∧ List.Perm (List.insertionSort itemLE ids) ids)
    ∧ Rule_HNL_A002_eval [] ordClause
      = [LintResult.mk (SelectClauseElement.mk
            (some [RefChild.naked "AmountInvoiced"]) none 1 1)
          "Column should be ordered based on ordering scheme." [],
        LintResult.mk (SelectClauseElement.mk
            (some [RefChild.naked "SourceSystemCode"]) none 2 2)
          "Column should be ordered based on ordering scheme." [],
        LintResult.mk (SelectClauseElement.mk
            (some [RefChild.naked "InvoicedDate"]) none 3 3)
          "Column should be ordered based on ordering scheme." [],
        LintResult.mk (SelectClauseElement.mk
            (some [RefChild.naked "BKSourceSystem"]) none 4 4)
          "Column should be ordered based on ordering scheme." [],
        LintResult.mk (SelectClauseElement.mk
            (some [RefChild.naked "BKInvoicedDate"]) none 5 5)
          "Column should be ordered based on ordering scheme." []]
    ∧ (List.insertionSort itemLE
          (a002Identifiers (linesToIgnore []) ordClause)).map
        Prod.fst
      = ["BKInvoicedDate", "BKSourceSystem", "AmountInvoiced",
          "InvoicedDate", "SourceSystemCode"] :=
  ⟨fun ids =>
    ⟨@List.sorted_insertionSort _ itemLE _ ⟨itemLE_total⟩
      ⟨itemLE_trans⟩ ids,
      List.perm_insertionSort itemLE ids⟩, by decide, by decide⟩

/-! ### Idempotence of the alias-rule fixes -/

theorem conformsUsage_deduced (ae : Option (List RefChild)) :
    conformsUsage (deducedUsage ae) ae = true := by
  cases ae <;> simp [deducedUsage, conformsUsage]

theorem deducedUsage_cases (ae : Option (List RefChild)) :
    deducedUsage ae = "yes" ∨ deducedUsage ae = "no" := by
  cases ae <;> simp [deducedUsage]

theorem mem_violsOf (style u : String) (c : Clause) (r : LintResult)
    (hr : r ∈ violsOf style u c) :
    r.anchor ∈ c ∧ conformsUsage u r.anchor.alias_expression = false
      ∧ r.fixes = a001Fixes u r.anchor := by
  induction c with
  | nil => cases hr
  | cons e es ih =>
    rw [violsOf] at hr
    rcases List.mem_append.mp hr with h | h
    · unfold violFor at h
      split at h
      · cases h
      · rename_i hconf
        split at h
        · rw [List.mem_singleton] at h
          subst h
          exact ⟨List.mem_cons_self e es, by simpa using hconf, rfl⟩
        · cases h
    · obtain ⟨h1, h2, h3⟩ := ih h
      exact ⟨List.mem_cons_of_mem e h1, h2, h3⟩

theorem find?_violsOf_of_conforms (style u : String) (c : Clause)
    (e : SelectClauseElement)
    (hconf : conformsUsage u e.alias_expression = true) :
    (violsOf style u c).find? (fun r => decide (r.anchor = e))
      = none := by
  rw [List.find?_eq_none]
  intro r hr
  obtain ⟨-, hdev, -⟩ := mem_violsOf style u c r hr
  simp only [decide_eq_true_eq]
  intro heq
  rw [heq, hconf] at hdev
  cases hdev

theorem violFor_mem (style u d : String) (c : Clause)
    (e : SelectClauseElement) (hd : descriptionFor style = some d)
    (he : e ∈ c)
    (hdev : conformsUsage u e.alias_expression = false) :
    LintResult.mk e d (a001Fixes u e) ∈ violsOf style u c := by
  induction c with
  | nil => cases he
  | cons x xs ih =>
    rw [violsOf, List.mem_append]
    rcases List.mem_cons.mp he with rfl | hmem
    · left
      simp [violFor, hdev, hd]
    · right
      exact ih hmem

theorem find?_violsOf_of_deviates (style u d : String) (c : Clause)
    (e : SelectClauseElement) (hd : descriptionFor style = some d)
    (he : e ∈ c)
    (hdev : conformsUsage u e.alias_expression = false) :
    ∃ r, (violsOf style u c).find? (fun r => decide (r.anchor = e))
        = some r ∧ r.fixes = a001Fixes u e := by
  have hsome : ((violsOf style u c).find?
      (fun r => decide (r.anchor = e))).isSome := by
    rw [List.find?_isSome]
    exact ⟨LintResult.mk e d (a001Fixes u e),
      violFor_mem style u d c e hd he hdev, by simp⟩
  obtain ⟨r, hr⟩ := Option.isSome_iff_exists.mp hsome
  have hpr := List.find?_some hr
  have hmem := List.mem_of_find?_eq_some hr
  have hanch : r.anchor = e := by simpa using hpr
  obtain ⟨-, -, hfix⟩ := mem_violsOf style u c r hmem
  exact ⟨r, hr, by rw [hfix, hanch]⟩

theorem applyResultElem_of_conforms (style u : String) (c : Clause)
    (e : SelectClauseElement)
    (hconf : conformsUsage u e.alias_expression = true) :
    applyResultElem (violsOf style u c) e = e := by
  unfold applyResultElem
  rw [find?_violsOf_of_conforms style u c e hconf]

theorem applyResultElem_conforms (style u d : String) (c : Clause)
    (e : SelectClauseElement) (hd : descriptionFor style = some d)
    (hu : u = "yes" ∨ u = "no") (he : e ∈ c)
    (hsimple : u = "yes" →
      (e.column_reference.bind columnIdentifier).isSome = true) :
    conformsUsage u
      ((applyResultElem (violsOf style u c) e).alias_expression)
      = true := by
  by_cases hconf : conformsUsage u e.alias_expression = true
  · rw [applyResultElem_of_conforms style u c e hconf]
    exact hconf
  · have hdev : conformsUsage u e.alias_expression = false := by
      simpa using hconf
    obtain ⟨r, hfind, hfix⟩ :=
      find?_violsOf_of_deviates style u d c e hd he hdev
    unfold applyResultElem
    rw [hfind]
    rcases hu with rfl | rfl
    · obtain ⟨tok, htok⟩ :=
        Option.isSome_iff_exists.mp (hsimple rfl)
    -- the bind is some, so the reference and its identifier exist
      cases href : e.column_reference with
      | none => rw [href] at htok; cases htok
      | some ref =>
        rw [href] at htok
        have htok2 : columnIdentifier ref = some tok := htok
        have hfixes : a001Fixes "yes" e
            = [LintFix.create_after (Anchor.columnRef ref)
                [Token.whitespace, Token.keyword "AS",
                  Token.whitespace, Token.identifier tok]] := by
          simp [a001Fixes, href, htok2]
        simp [hfix, hfixes, applyFixesToElement, applyFixToElement,
          conformsUsage, tokenIdentChild]
    · have hae : e.alias_expression.isSome = true := by
        simpa [conformsUsage] using hdev
      cases hex : e.alias_expression with
      | none => rw [hex] at hae; cases hae
      | some ae =>
        have hfixes : a001Fixes "no" e
            = [LintFix.delete (Anchor.aliasExpr ae)] := by
          simp [a001Fixes, hex]
        simp [hfix, hfixes, applyFixesToElement, applyFixToElement,
          conformsUsage]

theorem violsOf_eq_nil (style u : String) (c : Clause)
    (h : ∀ e ∈ c, conformsUsage u e.alias_expression = true) :
    violsOf style u c = [] := by
  induction c with
  | nil => rfl
  | cons e es ih =>
    rw [violsOf, violFor, if_pos (h e (List.mem_cons_self e es)),
      List.nil_append]
    exact ih fun x hx => h x (List.mem_cons_of_mem e hx)

theorem applyResults_conforms (style u d : String) (c : Clause)
    (hd : descriptionFor style = some d) (hu : u = "yes" ∨ u = "no")
    (hsimple : ∀ e ∈ c, u = "yes" →
      (e.column_reference.bind columnIdentifier).isSome = true) :
    ∀ x ∈ applyResults (violsOf style u c) c,
      conformsUsage u x.alias_expression = true := by
  intro x hx
  unfold applyResults at hx
  rw [List.mem_map] at hx
  obtain ⟨e, he, rfl⟩ := hx
  exact applyResultElem_conforms style u d c e hd hu he (hsimple e he)

theorem a001Eval_rerun_of_some (style u d : String)
    (mem2 : Option String) (c2 : Clause)
    (hd : descriptionFor style = some d)
    (hinit : initUsage style mem2 = some u)
    (hall : ∀ x ∈ c2, conformsUsage u x.alias_expression = true) :
    Rule_HNL_A001_eval style mem2 c2 = Except.ok ([], mem2) := by
  rw [a001Eval_of_some style u d mem2 c2 hinit hd,
    violsOf_eq_nil style u c2 hall]

theorem a001Eval_rerun_deduced (style d : String)
    (mem2 : Option String) (e : SelectClauseElement) (rest2 : Clause)
    (hd : descriptionFor style = some d)
    (hinit : initUsage style mem2 = none)
    (hall : ∀ x ∈ rest2,
      conformsUsage (deducedUsage e.alias_expression)
        x.alias_expression = true) :
    Rule_HNL_A001_eval style mem2 (e :: rest2)
      = Except.ok ([], some (deducedUsage e.alias_expression)) := by
  rw [a001Eval_of_none_cons style (deducedUsage e.alias_expression) d
    mem2 e rest2 hinit hd rfl,
    violsOf_eq_nil style (deducedUsage e.alias_expression) rest2 hall]

theorem a001_idem_decided (style u d : String)
    (mem mem' : Option String) (c : Clause) (viols : List LintResult)
    (hd : descriptionFor style = some d)
    (hinit : initUsage style mem = some u)
    (hu : u = "yes" ∨ u = "no")
    (hsimple : ∀ e ∈ c,
      (e.column_reference.bind columnIdentifier).isSome = true)
    (hrun : Rule_HNL_A001_eval style mem c
      = Except.ok (viols, mem')) :
    Rule_HNL_A001_eval style mem' (applyResults viols c)
      = Except.ok ([], mem') := by
  rw [a001Eval_of_some style u d mem c hinit hd] at hrun
  have h := Except.ok.inj hrun
  have hv1 : violsOf style u c = viols := congrArg Prod.fst h
  have hv2 : mem = mem' := congrArg Prod.snd h
  subst hv2
  subst hv1
  exact a001Eval_rerun_of_some style u d mem
    (applyResults (violsOf style u c) c) hd hinit
    (applyResults_conforms style u d c hd hu
      (fun e he _ => hsimple e he))

theorem a001_idem_deduced_core (style d : String)
    (mem mem' : Option String) (e : SelectClauseElement)
    (rest : Clause) (viols : List LintResult)
    (hd : descriptionFor style = some d)
    (hinit : initUsage style mem = none)
    (hsimple : ∀ x ∈ e :: rest,
      (x.column_reference.bind columnIdentifier).isSome = true)
    (hrun : Rule_HNL_A001_eval style mem (e :: rest)
      = Except.ok (viols, mem')) :
    mem' = some (deducedUsage e.alias_expression)
    ∧ applyResults viols (e :: rest) = e :: applyResults viols rest
    ∧ (∀ x ∈ applyResults viols rest,
        conformsUsage (deducedUsage e.alias_expression)
          x.alias_expression = true) := by
  rw [a001Eval_of_none_cons style (deducedUsage e.alias_expression) d
    mem e rest hinit hd rfl] at hrun
  have h := Except.ok.inj hrun
  have hv1 : violsOf style (deducedUsage e.alias_expression) rest
      = viols := congrArg Prod.fst h
  have hv2 : some (deducedUsage e.alias_expression) = mem' :=
    congrArg Prod.snd h
  subst hv1
  refine ⟨hv2.symm, ?_, ?_⟩
  · rw [applyResults, List.map_cons,
      applyResultElem_of_conforms style (deducedUsage
        e.alias_expression) rest e (conformsUsage_deduced _)]
    rfl
  · exact applyResults_conforms style (deducedUsage
      e.alias_expression) d rest hd (deducedUsage_cases _)
      (fun y hy _ => hsimple y (List.mem_cons_of_mem e hy))

/-- C3 (amended): for each of the three policies, starting from a
reachable memory, on a clause all of whose columns are simple
reference columns with an extractable identifier, applying all
suggested fixes and re-running the evaluator with the resulting memory
yields zero violations.  (For other clauses the claim fails: a
deviating column with no extractable identifier is flagged without a
fix and is flagged again on the re-run.) -/
theorem hnl_a001_fixes_idempotent (style : String)
    (mem mem' : Option String) (c : Clause) (viols : List LintResult)
    (hstyle : style = "always" ∨ style = "consistent_clause"
      ∨ style = "consistent_file")
    (hmem : mem = none ∨ mem = some "yes" ∨ mem = some "no")
    (hsimple : ∀ e ∈ c,
      (e.column_reference.bind columnIdentifier).isSome = true)
    (hrun : Rule_HNL_A001_eval style mem c
      = Except.ok (viols, mem')) :
    Rule_HNL_A001_eval style mem' (applyResults viols c)
      = Except.ok ([], mem') := by
  rcases hstyle with rfl | rfl | rfl
  · exact a001_idem_decided "always" "yes"
      "Column should always use an alias." mem mem' c viols rfl rfl
      (Or.inl rfl) hsimple hrun
  · cases c with
    | nil =>
      rw [a001Eval_nil] at hrun
      have h := Except.ok.inj hrun
      have hv1 : ([] : List LintResult) = viols := congrArg Prod.fst h
      have hv2 : mem = mem' := congrArg Prod.snd h
      subst hv2
      subst hv1
      rfl
    | cons e rest =>
      obtain ⟨hm, happ, hall⟩ := a001_idem_deduced_core
        "consistent_clause"
        "Column alias usage should be consistent within clause."
        mem mem' e rest viols rfl rfl hsimple hrun
      subst hm
      rw [happ]
      exact a001Eval_rerun_deduced "consistent_clause"
        "Column alias usage should be consistent within clause."
        (some (deducedUsage e.alias_expression)) e
        (applyResults viols rest) rfl rfl hall
  · rcases hmem with rfl | rfl | rfl
    · cases c with
      | nil =>
        rw [a001Eval_nil] at hrun
        have h := Except.ok.inj hrun
        have hv1 : ([] : List LintResult) = viols :=
          congrArg Prod.fst h
        have hv2 : (none : Option String) = mem' :=
          congrArg Prod.snd h
        subst hv2
        subst hv1
        rfl
      | cons e rest =>
        obtain ⟨hm, happ, hall⟩ := a001_idem_deduced_core
          "consistent_file"
          "Column alias usage should be consistent within file."
          none mem' e rest viols rfl rfl hsimple hrun
        subst hm
        rw [happ]
        refine a001Eval_rerun_of_some "consistent_file"
          (deducedUsage e.alias_expression)
          "Column alias usage should be consistent within file."
          (some (deducedUsage e.alias_expression))
          (e :: applyResults viols rest) rfl rfl ?_
        intro x hx
        rcases List.mem_cons.mp hx with rfl | hx'
        · exact conformsUsage_deduced _
        · exact hall x hx'
    · exact a001_idem_decided "consistent_file" "yes"
        "Column alias usage should be consistent within file."
        (some "yes") mem' c viols rfl rfl (Or.inl rfl) hsimple hrun
    · exact a001_idem_decided "consistent_file" "no"
        "Column alias usage should be consistent within file."
        (some "no") mem' c viols rfl rfl (Or.inr rfl) hsimple hrun

/-- C3 witness: the one-column clause `a` under the `always` policy:
the fix adds the self-alias and the re-run is clean. -/
theorem hnl_a001_fixes_idempotent_witness :
    Rule_HNL_A001_eval "always" none
      (applyResults
        [LintResult.mk
          (SelectClauseElement.mk (some [RefChild.naked "a"]) none 1 1)
          "Column should always use an alias."
          [LintFix.create_after (Anchor.columnRef [RefChild.naked "a"])
            [Token.whitespace, Token.keyword "AS", Token.whitespace,
              Token.identifier (RefChild.naked "a")]]]
        [SelectClauseElement.mk (some [RefChild.naked "a"]) none 1 1])
      = Except.ok ([], none) :=
  hnl_a001_fixes_idempotent "always" none none
    [SelectClauseElement.mk (some [RefChild.naked "a"]) none 1 1]
    [LintResult.mk
      (SelectClauseElement.mk (some [RefChild.naked "a"]) none 1 1)
      "Column should always use an alias."
      [LintFix.create_after (Anchor.columnRef [RefChild.naked "a"])
        [Token.whitespace, Token.keyword "AS", Token.whitespace,
          Token.identifier (RefChild.naked "a")]]]
    (Or.inl rfl) (Or.inl rfl) (by decide) (by rfl)

/-- C3 counterexample: under the `always` policy a complex column (no
column reference) lacking an alias is flagged with no fix; applying
the (empty) fixes and re-running with the resulting memory flags it
again — one violation, not zero. -/
theorem hnl_a001_fixes_not_idempotent_counterexample :
    Rule_HNL_A001_eval "always" none
      (applyResults
        [LintResult.mk (SelectClauseElement.mk none none 1 9)
          "Column should always use an alias." []]
        [SelectClauseElement.mk none none 1 9])
      = Except.ok
          ([LintResult.mk (SelectClauseElement.mk none none 1 9)
              "Column should always use an alias." []],
            none)
    ∧ Rule_HNL_A001_eval "always" none
        [SelectClauseElement.mk none none 1 9]
      = Except.ok
          ([LintResult.mk (SelectClauseElement.mk none none 1 9)
              "Column should always use an alias." []],
            none) :=
  ⟨by rfl, by rfl⟩
